import Mathlib

/-!
# sql-querying frontend: SQL highlighter and query lifecycle

A shallow embedding of two pieces of the React frontend:

* `highlightSQL` of `components/QueryPanel.jsx`, the regular-expression split
  of a SQL text and the classification of every part;
* the query lifecycle of `App.jsx` (`handleQuery`, `loadHistory`,
  `handleClearHistory`, `handleHistorySelect`), of `QueryPanel.handleSubmit`
  and of `submitQuery` in `api.js`, as state-passing functions cut at
  every `await`.

JavaScript strings are sequences of UTF-16 code units, so a string is modelled
as the list of its code units.
-/

namespace SqlQuerying

/-! ## JavaScript strings -/

/-- A JavaScript string, as the list of its UTF-16 code units. -/
abbrev JSString := List Nat

/-- UTF-16 encoding of one Unicode scalar value. -/
def utf16 (c : Char) : List Nat :=
  if c.toNat < 65536 then [c.toNat]
  else [55296 + (c.toNat - 65536) / 1024, 56320 + (c.toNat - 65536) % 1024]

/-- Code units of a list of characters. -/
def utf16s : List Char → JSString
  | [] => []
  | c :: cs => utf16 c ++ utf16s cs

/-- The JavaScript string written as a Lean string literal. -/
def js (s : String) : JSString := utf16s s.data

/-- The regular-expression class `\s`: the ECMAScript WhiteSpace and
LineTerminator code points. `String.prototype.trim` strips the same set. -/
def isSpace (c : Nat) : Bool :=
  c == 9 || c == 10 || c == 11 || c == 12 || c == 13 || c == 32 || c == 160 ||
  c == 5760 || (8192 ≤ c && c ≤ 8202) || c == 8232 || c == 8233 || c == 8239 ||
  c == 8287 || c == 12288 || c == 65279

/-- The regular-expression class `\d`: the ASCII digits. -/
def isDigit (c : Nat) : Bool := 48 ≤ c && c ≤ 57

/-- The class `[^']`: every code unit but the apostrophe. -/
def notQuote (c : Nat) : Bool := c != 39

/-- `String.prototype.trim`: strips `\s` code units from both ends. -/
def trim (s : JSString) : JSString :=
  ((s.dropWhile isSpace).reverse.dropWhile isSpace).reverse

/-- Upper-case form of one code unit, as far as `toUpperCase` can produce ASCII
capitals: the letters `a`..`z`, sharp s, dotless i, long s and the
Latin ligatures U+FB00..U+FB06. Every other code point has an upper-case form
holding a character outside `A`..`Z` (for the capitals and the caseless
characters, itself); it is kept as it is, which leaves every comparison with a
word written in `A`..`Z` unchanged. -/
def upperUnit (c : Nat) : List Nat :=
  if 97 ≤ c ∧ c ≤ 122 then [c - 32]
  else if c = 223 then [83, 83]
  else if c = 305 then [73]
  else if c = 383 then [83]
  else if c = 64256 then [70, 70]
  else if c = 64257 then [70, 73]
  else if c = 64258 then [70, 76]
  else if c = 64259 then [70, 70, 73]
  else if c = 64260 then [70, 70, 76]
  else if c = 64261 then [83, 84]
  else if c = 64262 then [83, 84]
  else [c]

/-- `String.prototype.toUpperCase`, see `upperUnit`. -/
def toUpperCase : JSString → JSString
  | [] => []
  | c :: cs => upperUnit c ++ toUpperCase cs

/-! ## The split pattern `/(\s+|,|\(|\)|'[^']*'|\d+\.?\d*)/g`

Each alternative is a matcher anchored at the head of the remaining text; it
returns the matched text and what follows it. -/

/-- Alternative `\s+`. -/
def matchSpaces : JSString → Option (JSString × JSString)
  | [] => none
  | c :: cs =>
    if isSpace c then some (c :: cs.takeWhile isSpace, cs.dropWhile isSpace) else none

/-- Alternatives `,`, `\(` and `\)`: a single literal code unit `k`. -/
def matchUnit (k : Nat) : JSString → Option (JSString × JSString)
  | [] => none
  | c :: cs => if c = k then some ([c], cs) else none

/-- Alternative `'[^']*'`: an apostrophe, the non-apostrophes after it, and a
closing apostrophe; without a closing apostrophe there is no match. -/
def matchQuoted : JSString → Option (JSString × JSString)
  | [] => none
  | c :: cs =>
    if c = 39 then
      match cs.dropWhile notQuote with
      | [] => none
      | q :: rest => some (c :: (cs.takeWhile notQuote ++ [q]), rest)
    else none

/-- Alternative `\d+\.?\d*`: digits, an optional dot, and the digits after it
(possibly none). -/
def matchNumber : JSString → Option (JSString × JSString)
  | [] => none
  | c :: cs =>
    if isDigit c then
      match cs.dropWhile isDigit with
      | 46 :: rest =>
        some (c :: (cs.takeWhile isDigit ++ 46 :: rest.takeWhile isDigit),
              rest.dropWhile isDigit)
      | rest => some (c :: cs.takeWhile isDigit, rest)
    else none

/-- The whole capturing group, alternatives tried from left to right. -/
def matchDelim (s : JSString) : Option (JSString × JSString) :=
  matchSpaces s <|> matchUnit 44 s <|> matchUnit 40 s <|> matchUnit 41 s <|>
    matchQuoted s <|> matchNumber s

/-- The loop of `String.prototype.split` with a pattern holding one capturing
group: `cur` is the text since the end of the last match, `rest` the text not
yet scanned. A match at the scanning position pushes `cur` and the captured
text; otherwise the position advances by one code unit. At the end of the text
the remaining `cur` is pushed. The pattern never matches the empty string, so
the empty-match case of the loop does not arise. The first argument bounds
the number of iterations. -/
def splitLoop : Nat → JSString → JSString → List JSString
  | 0, _, _ => []
  | fuel + 1, cur, text =>
    match text with
    | [] => [cur]
    | c :: cs =>
      match matchDelim (c :: cs) with
      | some (m, rest) => cur :: m :: splitLoop fuel [] rest
      | none => splitLoop fuel (cur ++ [c]) cs

/-- Line 23: `sql.split(/(\s+|,|\(|\)|'[^']*'|\d+\.?\d*)/g)`. -/
def parts (sql : JSString) : List JSString :=
  splitLoop (sql.length + 1) [] sql

/-! ## Classification -/

/-- Lines 13-21: the reserved words. -/
def keywords : List JSString :=
  List.map js
    ["SELECT", "FROM", "WHERE", "JOIN", "LEFT", "RIGHT", "INNER", "OUTER",
     "ON", "AND", "OR", "NOT", "IN", "AS", "ORDER", "BY", "GROUP", "HAVING",
     "LIMIT", "OFFSET", "ASC", "DESC", "DISTINCT", "UNION", "ALL", "INSERT",
     "INTO", "VALUES", "UPDATE", "SET", "DELETE", "CREATE", "TABLE", "ALTER",
     "DROP", "INDEX", "VIEW", "WITH", "CASE", "WHEN", "THEN", "ELSE", "END",
     "NULL", "IS", "LIKE", "BETWEEN", "EXISTS", "COUNT", "SUM", "AVG", "MIN",
     "MAX", "CAST", "COALESCE", "IFNULL", "ROUND"]

/-- Line 34: the function names of the fourth test. -/
def functionNames : List JSString :=
  List.map js
    ["COUNT", "SUM", "AVG", "MIN", "MAX", "ROUND", "COALESCE", "IFNULL", "CAST"]

/-- Line 28: `/^'[^']*'$/.test(part)`. -/
def isQuoted : JSString → Bool
  | [] => false
  | c :: cs => c == 39 && cs.dropWhile notQuote == [39]

/-- Line 31: `/^\d+\.?\d*$/.test(part)`. -/
def isNumber : JSString → Bool
  | [] => false
  | c :: cs =>
    isDigit c &&
      (match cs.dropWhile isDigit with
       | [] => true
       | d :: rest => d == 46 && rest.all isDigit)

/-- The class given to a part: `sql-keyword`, `sql-string`, `sql-number`,
`sql-function`, or a span without a class. -/
inductive Kind where
  | Keyword
  | StringLiteral
  | NumericLiteral
  | FunctionName
  | Plain
  deriving DecidableEq, Repr

/-- The `className` attribute of the span, absent for a plain span. -/
def Kind.className : Kind → Option String
  | .Keyword => some "sql-keyword"
  | .StringLiteral => some "sql-string"
  | .NumericLiteral => some "sql-number"
  | .FunctionName => some "sql-function"
  | .Plain => none

/-- One `<span key=.. className=..>text</span>` of the rendered SQL. -/
structure Token where
  key : Nat
  kind : Kind
  text : JSString
  deriving DecidableEq, Repr

/-- Lines 25-38: the tests applied to a part, in the order of the source. -/
def classify (part : JSString) : Kind :=
  if keywords.contains (toUpperCase part) then .Keyword
  else if isQuoted part then .StringLiteral
  else if isNumber part && !(trim part).isEmpty then .NumericLiteral
  else if functionNames.contains (toUpperCase part) then .FunctionName
  else .Plain

/-- The callback of `parts.map((part, i) => ...)`, from index `i` on. -/
def renderFrom : Nat → List JSString → List Token
  | _, [] => []
  | i, part :: rest => ⟨i, classify part, part⟩ :: renderFrom (i + 1) rest

/-- Lines 11-40: `highlightSQL`. The empty string is falsy and renders nothing;
any other text is split and every part becomes a span. -/
def highlightSQL (sql : JSString) : List Token :=
  if sql.isEmpty then [] else renderFrom 0 (parts sql)

/-- The text shown by a rendered token list: the span texts in order. -/
def renderedText (ts : List Token) : JSString :=
  (ts.map Token.text).flatten

/-! ## Service calls (`api.js`) -/

/-- How an awaited promise settles. -/
inductive Settled (α : Type) where
  | fulfilled (value : α)
  | rejected
  deriving DecidableEq, Repr

/-- A parsed JSON body: `null`, or a value whose properties can be read.
Reading a property of `null` throws a `TypeError`. -/
inductive Reply (α : Type) where
  | null
  | object (value : α)
  deriving DecidableEq, Repr

/-- What the network delivers to one `fetch`: the promise rejects, or a
response arrives with its `ok` flag (status 200-299) and a body that
`res.json()` either parses (`some`) or rejects (`none`). -/
inductive FetchOutcome (α : Type) where
  | networkError
  | response (ok : Bool) (body : Option α)
  deriving DecidableEq, Repr

/-- The shared shape of the functions of `api.js`:
`const res = await fetch(..); if (!res.ok) throw ..; return res.json();`. -/
def awaitJson {α : Type} : FetchOutcome α → Settled α
  | .networkError => .rejected
  | .response ok body =>
    if !ok then .rejected
    else
      match body with
      | none => .rejected
      | some b => .fulfilled b

/-- The properties read from the body of `POST /api/query`: the truthiness of
`success`, and `error`, `sql` and `explanation` when present and not null. A
body that is a number, a string or an array reads as an object without any of
them. -/
structure QueryData where
  success : Bool
  error : Option JSString
  sql : Option JSString
  explanation : Option JSString
  deriving DecidableEq, Repr

/-- One entry of the history list. -/
structure HistoryEntry where
  id : Nat
  question : JSString
  success : Bool
  row_count : Nat
  deriving DecidableEq, Repr

/-- The body of `GET /api/history`: its `history` property, if any. -/
structure HistoryData where
  history : Option (List HistoryEntry)
  deriving DecidableEq, Repr

/-- A request sent to the backend. -/
inductive ApiCall where
  | submitQuery (question : JSString)
  | fetchHistory
  | clearHistory
  deriving DecidableEq, Repr

/-- `api.js`, lines 9-17: `submitQuery`, given what the network delivers. -/
def submitQuery (net : FetchOutcome (Reply QueryData)) : Settled (Reply QueryData) :=
  awaitJson net

/-- `api.js`, lines 29-33: `fetchHistory`. -/
def fetchHistory (net : FetchOutcome (Reply HistoryData)) : Settled (Reply HistoryData) :=
  awaitJson net

/-- `api.js`, lines 35-39: `clearHistory`; the body is not read by the caller. -/
def clearHistory (net : FetchOutcome Unit) : Settled Unit :=
  awaitJson net

/-! ## Application state (`App.jsx`) -/

/-- The toast shown by `showToast`. -/
structure Toast where
  message : String
  type : String
  deriving DecidableEq, Repr

/-- The `useState` cells of `App` that the query and history handlers touch,
and the log of the requests sent so far, oldest first. -/
structure AppState where
  queryLoading : Bool
  queryResult : Option QueryData
  queryError : Option JSString
  history : List HistoryEntry
  historyOpen : Bool
  toast : Option Toast
  calls : List ApiCall
  deriving DecidableEq, Repr

/-- The state after mounting: lines 13-20. -/
def AppState.initial : AppState :=
  { queryLoading := false, queryResult := none, queryError := none,
    history := [], historyOpen := false, toast := none, calls := [] }

/-- The JavaScript `a || b` on an optional string: `b` when `a` is missing,
null or the empty string. -/
def orElse (a : Option JSString) (b : JSString) : JSString :=
  match a with
  | some m => if m.isEmpty then b else m
  | none => b

/-- Line 51: the fallback message. -/
def generationFailedMessage : JSString := js "Failed to generate SQL"

/-- Line 56: the message of the `catch` branch. -/
def connectionErrorMessage : JSString :=
  js "Connection error. Is the backend server running?"

/-- Lines 62-64: `loadHistory` up to its `await`: the request is sent. -/
def loadHistory_begin (st : AppState) : AppState :=
  { st with calls := st.calls ++ [.fetchHistory] }

/-- Lines 64-68: `loadHistory` after its `await`: the list is stored; a
rejection, or a `null` body, is caught silently. -/
def loadHistory_resume (st : AppState) : Settled (Reply HistoryData) → AppState
  | .fulfilled (.object data) => { st with history := data.history.getD [] }
  | .fulfilled .null => st
  | .rejected => st

/-- Lines 41-47: `handleQuery` up to its `await`. -/
def handleQuery_begin (st : AppState) (question : JSString) : AppState :=
  { st with
    queryLoading := true, queryError := none, queryResult := none,
    calls := st.calls ++ [.submitQuery question] }

/-- Lines 47-59: `handleQuery` after its `await`, on the state `st` found when
the promise of `submitQuery` settles. Reading `data.success` of a `null` body
throws and lands in the `catch` branch, like a rejection. -/
def handleQuery_resume (st : AppState) : Settled (Reply QueryData) → AppState
  | .fulfilled (.object data) =>
    let st1 :=
      if data.success then { st with queryResult := some data }
      else { st with queryError := some (orElse data.error generationFailedMessage) }
    let st2 := loadHistory_begin st1
    { st2 with queryLoading := false }
  | .fulfilled .null =>
    { st with queryError := some connectionErrorMessage, queryLoading := false }
  | .rejected =>
    { st with queryError := some connectionErrorMessage, queryLoading := false }

/-- One call of `handleQuery` from start to end with no other handler running
while the request is in flight. -/
def handleQuery (st : AppState) (question : JSString)
    (net : FetchOutcome (Reply QueryData)) : AppState :=
  handleQuery_resume (handleQuery_begin st question) (submitQuery net)

/-- Lines 81-84: `handleHistorySelect`, up to the `await` of `handleQuery`. -/
def handleHistorySelect (st : AppState) (question : JSString) : AppState :=
  handleQuery_begin { st with historyOpen := false } question

/-- Lines 108-111: `showToast`; the timer that hides the toast after three
seconds is the separate step `hideToast`. -/
def showToast (st : AppState) (message : String) (type : String) : AppState :=
  { st with toast := some ⟨message, type⟩ }

/-- The callback of the timer set by `showToast`. -/
def hideToast (st : AppState) : AppState :=
  { st with toast := none }

/-- Lines 71-73: `handleClearHistory` up to its `await`: the request is sent. -/
def handleClearHistory_begin (st : AppState) : AppState :=
  { st with calls := st.calls ++ [.clearHistory] }

/-- Lines 73-78: `handleClearHistory` after its `await`. -/
def handleClearHistory_resume (st : AppState) : Settled Unit → AppState
  | .fulfilled _ => showToast { st with history := [] } "History cleared" "success"
  | .rejected => showToast st "Failed to clear history" "error"

/-- Lines 71-79: one call of `handleClearHistory` from start to end with no other
handler running while the request is in flight. -/
def handleClearHistory (st : AppState) (net : FetchOutcome Unit) : AppState :=
  handleClearHistory_resume (handleClearHistory_begin st) (clearHistory net)

/-- Lines 47-54: the `try` block of `handleQuery` after its `await`, on the state
`st` found when the promise settles: the state it leaves, or the exception it
throws. The `await` throws when the promise of `submitQuery` is rejected, and
reading `data.success` throws when the body is `null`. -/
def handleQuery_try (st : AppState) : Settled (Reply QueryData) → Except Unit AppState
  | .fulfilled (.object data) =>
    .ok (loadHistory_begin
      (if data.success then { st with queryResult := some data }
       else { st with queryError := some (orElse data.error generationFailedMessage) }))
  | .fulfilled .null => .error ()
  | .rejected => .error ()

/-- Lines 46-59: `try`, `catch` and `finally` of `handleQuery`: the state left, and
how the promise returned by `handleQuery` settles. The `catch` branch takes every
exception of the `try` block and throws none. -/
def handleQuery_settle (st : AppState) (o : Settled (Reply QueryData)) :
    AppState × Settled Unit :=
  match handleQuery_try st o with
  | .ok st1 => ({ st1 with queryLoading := false }, .fulfilled ())
  | .error _ =>
    ({ st with queryError := some connectionErrorMessage, queryLoading := false },
     .fulfilled ())

/-- The text holds a decimal digit. -/
def hasDigit (s : JSString) : Bool := s.any isDigit

/-- A part is harmless when it holds no digit, passes the numeric test of line
31, or passes the string test of line 28. -/
def partOK (part : JSString) : Prop :=
  hasDigit part = false ∨ isNumber part = true ∨ isQuoted part = true

/-- The message of the toast shown, if any. -/
def toastMessage (st : AppState) : Option String :=
  st.toast.map Toast.message

/-- `QueryPanel.jsx`, lines 45-50: `handleSubmit`, for the text of the textarea
and the `loading` prop: the argument handed to `onSubmit`, or `none` when
`onSubmit` is not called. -/
def handleSubmit (question : JSString) (loading : Bool) : Option JSString :=
  if !(trim question).isEmpty && !loading then some (trim question) else none

/-- The form of `QueryPanel` as wired in `App.jsx`, lines 174-179:
`onSubmit={handleQuery}` and `loading={queryLoading}`. -/
def submitForm (st : AppState) (question : JSString) : AppState :=
  match handleSubmit question st.queryLoading with
  | some q => handleQuery_begin st q
  | none => st

/-- The interleaving of two submissions: `handleQuery` starts for attempt A, the
user picks an entry of the history panel while A is in flight (the panel has no
`loading` guard), so `handleQuery` starts for attempt B; the promise of B settles
first with `oB`, the promise of A settles last with `oA`. -/
def staleResolution (st : AppState) (qA qB : JSString)
    (oA oB : Settled (Reply QueryData)) : AppState :=
  let afterA := handleQuery_begin st qA
  let afterB := handleHistorySelect afterA qB
  let settledB := handleQuery_resume afterB oB
  handleQuery_resume settledB oA

/-- The state of the same interleaving when the promise of B has settled and
the promise of A has not yet. -/
def settledB (st : AppState) (qA qB : JSString) (oB : Settled (Reply QueryData)) : AppState :=
  handleQuery_resume (handleHistorySelect (handleQuery_begin st qA) qB) oB

/-- The value a settled `submitQuery` makes `handleQuery` store in `queryResult`,
if any: the body, when it is an object with a truthy `success`. -/
def resultOf : Settled (Reply QueryData) → Option QueryData
  | .fulfilled (.object data) => if data.success then some data else none
  | _ => none

/-- The message a settled `submitQuery` makes `handleQuery` store in `queryError`,
if any. -/
def errorOf : Settled (Reply QueryData) → Option JSString
  | .fulfilled (.object data) =>
    if data.success then none else some (orElse data.error generationFailedMessage)
  | _ => some connectionErrorMessage

/-- Number of history requests sent so far. -/
def fetchHistoryCalls (st : AppState) : Nat :=
  st.calls.count .fetchHistory

/-- Number of query requests sent so far. -/
def submitQueryCalls (st : AppState) : Nat :=
  (st.calls.filter fun c => match c with | .submitQuery _ => true | _ => false).length

/-- The form `digits[.digits]` in the words of the specification: one or more
decimal digits, optionally followed by a dot and one or more decimal digits. -/
def specNumeric (s : JSString) : Bool :=
  !(s.takeWhile isDigit).isEmpty &&
    (match s.dropWhile isDigit with
     | [] => true
     | d :: frac => d == 46 && !frac.isEmpty && frac.all isDigit)

/-- The text starts with a capital letter `A`..`Z`. -/
def startsWithCapital : JSString → Bool
  | [] => false
  | c :: _ => 65 ≤ c && c ≤ 90

/-! ## Lemmas on the split -/

theorem matchSpaces_sound {s m r : JSString} (h : matchSpaces s = some (m, r)) :
    s = m ++ r ∧ m ≠ [] := by
  cases s with
  | nil => simp [matchSpaces] at h
  | cons c cs =>
    simp only [matchSpaces] at h
    split at h
    · simp only [Option.some.injEq, Prod.mk.injEq] at h
      obtain ⟨rfl, rfl⟩ := h
      simp [List.takeWhile_append_dropWhile]
    · simp at h

theorem matchUnit_sound {k : Nat} {s m r : JSString} (h : matchUnit k s = some (m, r)) :
    s = m ++ r ∧ m ≠ [] := by
  cases s with
  | nil => simp [matchUnit] at h
  | cons c cs =>
    simp only [matchUnit] at h
    split at h
    · simp only [Option.some.injEq, Prod.mk.injEq] at h
      obtain ⟨rfl, rfl⟩ := h
      simp
    · simp at h

theorem matchQuoted_sound {s m r : JSString} (h : matchQuoted s = some (m, r)) :
    s = m ++ r ∧ m ≠ [] := by
  cases s with
  | nil => simp [matchQuoted] at h
  | cons c cs =>
    simp only [matchQuoted] at h
    split at h
    · split at h
      · simp at h
      · rename_i q rest hd
        simp only [Option.some.injEq, Prod.mk.injEq] at h
        obtain ⟨rfl, rfl⟩ := h
        have := List.takeWhile_append_dropWhile notQuote cs
        rw [hd] at this
        simp [this]
    · simp at h

theorem matchNumber_sound {s m r : JSString} (h : matchNumber s = some (m, r)) :
    s = m ++ r ∧ m ≠ [] := by
  cases s with
  | nil => simp [matchNumber] at h
  | cons c cs =>
    simp only [matchNumber] at h
    split at h
    · have hcs := List.takeWhile_append_dropWhile isDigit cs
      split at h
      · rename_i rest hd
        simp only [Option.some.injEq, Prod.mk.injEq] at h
        obtain ⟨rfl, rfl⟩ := h
        rw [hd] at hcs
        have hr := List.takeWhile_append_dropWhile isDigit rest
        refine ⟨?_, by simp⟩
        simp only [List.cons_append, List.append_assoc, List.cons.injEq, true_and]
        rw [hr]
        exact hcs.symm
      · simp only [Option.some.injEq, Prod.mk.injEq] at h
        obtain ⟨rfl, rfl⟩ := h
        simp [hcs]
    · simp at h

/-- A match of the split pattern is a non-empty initial piece of the text. -/
theorem matchDelim_sound {s m r : JSString} (h : matchDelim s = some (m, r)) :
    s = m ++ r ∧ m ≠ [] := by
  unfold matchDelim at h
  cases h1 : matchSpaces s with
  | some x => rw [h1] at h; exact matchSpaces_sound (h1.trans (by simpa using h))
  | none =>
    cases h2 : matchUnit 44 s with
    | some x => rw [h1, h2] at h; exact matchUnit_sound (h2.trans (by simpa using h))
    | none =>
      cases h3 : matchUnit 40 s with
      | some x => rw [h1, h2, h3] at h; exact matchUnit_sound (h3.trans (by simpa using h))
      | none =>
        cases h4 : matchUnit 41 s with
        | some x => rw [h1, h2, h3, h4] at h; exact matchUnit_sound (h4.trans (by simpa using h))
        | none =>
          cases h5 : matchQuoted s with
          | some x =>
            rw [h1, h2, h3, h4, h5] at h; exact matchQuoted_sound (h5.trans (by simpa using h))
          | none =>
            rw [h1, h2, h3, h4, h5] at h
            exact matchNumber_sound (by simpa using h)

theorem splitLoop_nil (fuel : Nat) (cur : JSString) :
    splitLoop (fuel + 1) cur [] = [cur] := rfl

theorem splitLoop_cons (fuel : Nat) (cur : JSString) (c : Nat) (cs : JSString) :
    splitLoop (fuel + 1) cur (c :: cs) =
      match matchDelim (c :: cs) with
      | some (m, rest) => cur :: m :: splitLoop fuel [] rest
      | none => splitLoop fuel (cur ++ [c]) cs := rfl

theorem splitLoop_flatten (fuel : Nat) :
    ∀ (cur rest : JSString), rest.length < fuel →
      (splitLoop fuel cur rest).flatten = cur ++ rest := by
  induction fuel with
  | zero => intro cur rest h; omega
  | succ n ih =>
    intro cur rest h
    cases rest with
    | nil => simp [splitLoop_nil]
    | cons c cs =>
      rw [splitLoop_cons]
      cases hm : matchDelim (c :: cs) with
      | none =>
        simp only
        rw [ih _ _ (by simpa using h)]
        simp
      | some x =>
        obtain ⟨m, r⟩ := x
        obtain ⟨hs, hne⟩ := matchDelim_sound hm
        have hlen : r.length < n := by
          have h1 : (c :: cs).length = m.length + r.length := by rw [hs]; simp
          have h2 : 0 < m.length := List.length_pos.mpr hne
          simp only [List.length_cons] at h h1
          omega
        simp only [List.flatten_cons]
        rw [ih _ _ hlen, hs]
        simp

/-- The bound given to the loop by `parts` is never reached: a larger bound
gives the same parts. -/
theorem splitLoop_fuel (fuel : Nat) :
    ∀ (k : Nat) (cur rest : JSString), rest.length < fuel →
      splitLoop (fuel + k) cur rest = splitLoop fuel cur rest := by
  induction fuel with
  | zero => intro k cur rest h; omega
  | succ n ih =>
    intro k cur rest h
    have e : n + 1 + k = (n + k) + 1 := by omega
    rw [e]
    cases rest with
    | nil => rfl
    | cons c cs =>
      rw [splitLoop_cons, splitLoop_cons]
      cases hm : matchDelim (c :: cs) with
      | none =>
        simp only
        exact ih _ _ _ (by simpa using h)
      | some x =>
        obtain ⟨m, r⟩ := x
        obtain ⟨hs, hne⟩ := matchDelim_sound hm
        have hlen : r.length < n := by
          have h1 : (c :: cs).length = m.length + r.length := by rw [hs]; simp
          have h2 : 0 < m.length := List.length_pos.mpr hne
          simp only [List.length_cons] at h h1
          omega
        simp only
        rw [ih _ _ _ hlen]

theorem renderedText_renderFrom (ps : List JSString) :
    ∀ i : Nat, renderedText (renderFrom i ps) = ps.flatten := by
  induction ps with
  | nil => intro i; rfl
  | cons p rest ih =>
    intro i
    have := ih (i + 1)
    simp only [renderedText] at this
    simp [renderFrom, renderedText, this]

theorem mem_renderFrom {t : Token} (ps : List JSString) :
    ∀ i : Nat, t ∈ renderFrom i ps → t.text ∈ ps ∧ t.kind = classify t.text := by
  induction ps with
  | nil => intro i h; simp [renderFrom] at h
  | cons p rest ih =>
    intro i h
    simp only [renderFrom, List.mem_cons] at h
    rcases h with h | h
    · subst h; simp
    · obtain ⟨h1, h2⟩ := ih _ h
      exact ⟨List.mem_cons_of_mem _ h1, h2⟩

theorem mem_highlightSQL {sql : JSString} {t : Token} (h : t ∈ highlightSQL sql) :
    t.text ∈ parts sql ∧ t.kind = classify t.text := by
  unfold highlightSQL at h
  split at h
  · simp at h
  · exact mem_renderFrom _ _ h

/-! ## Lemmas on the classification -/

theorem functionNames_subset_keywords :
    ∀ w ∈ functionNames, w ∈ keywords := by decide

theorem classify_keyword_iff (part : JSString) :
    classify part = .Keyword ↔ toUpperCase part ∈ keywords := by
  have hk' : toUpperCase part ∈ keywords ↔ keywords.contains (toUpperCase part) = true := by
    simp
  rw [hk']
  unfold classify
  cases keywords.contains (toUpperCase part) <;> cases isQuoted part <;>
    cases (isNumber part && !(trim part).isEmpty) <;>
    cases functionNames.contains (toUpperCase part) <;> simp

theorem classify_ne_functionName (part : JSString) :
    classify part ≠ .FunctionName := by
  have hsub : functionNames.contains (toUpperCase part) = true →
      keywords.contains (toUpperCase part) = true := by
    intro hc
    have hm : toUpperCase part ∈ functionNames := by simpa using hc
    simpa using functionNames_subset_keywords _ hm
  unfold classify
  revert hsub
  cases keywords.contains (toUpperCase part) <;> cases isQuoted part <;>
    cases (isNumber part && !(trim part).isEmpty) <;>
    cases functionNames.contains (toUpperCase part) <;> simp

theorem keywords_startsWithCapital :
    ∀ w ∈ keywords, startsWithCapital w = true := by decide

theorem upperUnit_of_isDigit {c : Nat} (h : isDigit c = true) : upperUnit c = [c] := by
  simp only [isDigit, Bool.and_eq_true, decide_eq_true_eq] at h
  unfold upperUnit
  have h1 : ¬ (97 ≤ c ∧ c ≤ 122) := by omega
  rw [if_neg h1, if_neg (by omega), if_neg (by omega), if_neg (by omega), if_neg (by omega),
    if_neg (by omega), if_neg (by omega), if_neg (by omega), if_neg (by omega),
    if_neg (by omega), if_neg (by omega)]

theorem not_isSpace_of_isDigit {c : Nat} (h : isDigit c = true) : isSpace c = false := by
  simp only [isDigit, Bool.and_eq_true, decide_eq_true_eq] at h
  have h48 : 48 ≤ c := h.1
  have h57 : c ≤ 57 := h.2
  interval_cases c <;> rfl

theorem dropWhile_append_of_all (p : Nat → Bool) (a b : List Nat)
    (h : ∀ x ∈ a, p x = true) : (a ++ b).dropWhile p = b.dropWhile p := by
  induction a with
  | nil => rfl
  | cons x xs ih =>
    have hx : p x = true := h x (List.mem_cons_self _ _)
    simp only [List.cons_append, List.dropWhile_cons, hx, if_true]
    exact ih (fun y hy => h y (List.mem_cons_of_mem _ hy))

theorem dropWhile_eq_nil_of_all (p : Nat → Bool) (a : List Nat)
    (h : ∀ x ∈ a, p x = true) : a.dropWhile p = [] := by
  have := dropWhile_append_of_all p a [] h
  simpa using this

theorem all_of_dropWhile_eq_nil (p : Nat → Bool) (a : List Nat)
    (h : a.dropWhile p = []) : ∀ x ∈ a, p x = true := by
  induction a with
  | nil => intro x hx; simp at hx
  | cons y ys ih =>
    simp only [List.dropWhile_cons] at h
    split at h
    · rename_i hy
      intro x hx
      rcases List.mem_cons.mp hx with rfl | hx
      · exact hy
      · exact ih h x hx
    · simp at h

theorem mem_takeWhile_sat (p : Nat → Bool) (a : List Nat) :
    ∀ x ∈ a.takeWhile p, p x = true := by
  induction a with
  | nil => intro x hx; simp at hx
  | cons y ys ih =>
    intro x hx
    simp only [List.takeWhile_cons] at hx
    split at hx
    · rename_i hy
      rcases List.mem_cons.mp hx with rfl | hx
      · exact hy
      · exact ih x hx
    · simp at hx

/-- The numeric test of line 31 accepts exactly the texts made of one or more
digits, then possibly a dot followed by any number of digits. -/
theorem isNumber_iff (part : JSString) :
    isNumber part = true ↔
      ∃ a b : JSString, part = a ++ b ∧ a ≠ [] ∧ (∀ c ∈ a, isDigit c = true) ∧
        (b = [] ∨ ∃ f : JSString, b = 46 :: f ∧ ∀ c ∈ f, isDigit c = true) := by
  constructor
  · intro h
    cases part with
    | nil => simp [isNumber] at h
    | cons c cs =>
      simp only [isNumber, Bool.and_eq_true] at h
      obtain ⟨hc, hrest⟩ := h
      have hcs := List.takeWhile_append_dropWhile isDigit cs
      cases hd : cs.dropWhile isDigit with
      | nil =>
        refine ⟨c :: cs, [], by simp, by simp, ?_, Or.inl rfl⟩
        intro x hx
        rcases List.mem_cons.mp hx with rfl | hx
        · exact hc
        · exact all_of_dropWhile_eq_nil _ _ hd x hx
      | cons d rest =>
        rw [hd] at hrest hcs
        simp only [Bool.and_eq_true, beq_iff_eq, List.all_eq_true] at hrest
        obtain ⟨rfl, hall⟩ := hrest
        refine ⟨c :: cs.takeWhile isDigit, 46 :: rest, ?_, by simp, ?_, Or.inr ⟨rest, rfl, hall⟩⟩
        · simp [hcs]
        · intro x hx
          rcases List.mem_cons.mp hx with rfl | hx
          · exact hc
          · exact mem_takeWhile_sat _ _ x hx
  · rintro ⟨a, b, rfl, hne, ha, hb⟩
    cases a with
    | nil => exact absurd rfl hne
    | cons c cs =>
      have hc : isDigit c = true := ha c (List.mem_cons_self _ _)
      have hcs : ∀ x ∈ cs, isDigit x = true := fun x hx => ha x (List.mem_cons_of_mem _ hx)
      simp only [List.cons_append, isNumber, hc, Bool.true_and]
      rw [dropWhile_append_of_all _ _ _ hcs]
      rcases hb with rfl | ⟨f, rfl, hf⟩
      · simp
      · have h46 : isDigit 46 = false := by decide
        simp only [List.dropWhile_cons, h46]
        simpa using hf

/-- A part accepted by the numeric test is classified NumericLiteral: it is no
reserved word, it does not start with an apostrophe, and it is not blank. -/
theorem classify_numeric_iff (part : JSString) :
    classify part = .NumericLiteral ↔ isNumber part = true := by
  constructor
  · unfold classify
    cases keywords.contains (toUpperCase part) <;> cases isQuoted part <;>
      cases isNumber part <;>
      cases functionNames.contains (toUpperCase part) <;> simp
  · intro h
    cases part with
    | nil => simp [isNumber] at h
    | cons c cs =>
      have hc : isDigit c = true := by
        simp only [isNumber, Bool.and_eq_true] at h
        exact h.1
      have hkw : keywords.contains (toUpperCase (c :: cs)) = false := by
        cases hk : keywords.contains (toUpperCase (c :: cs)) with
        | false => rfl
        | true =>
          exfalso
          have hm : toUpperCase (c :: cs) ∈ keywords := by simpa using hk
          have hcap := keywords_startsWithCapital _ hm
          simp only [toUpperCase, upperUnit_of_isDigit hc, List.singleton_append,
            startsWithCapital, Bool.and_eq_true, decide_eq_true_eq] at hcap
          simp only [isDigit, Bool.and_eq_true, decide_eq_true_eq] at hc
          omega
      have hq : isQuoted (c :: cs) = false := by
        simp only [isDigit, Bool.and_eq_true, decide_eq_true_eq] at hc
        have : c ≠ 39 := by omega
        simp [isQuoted, this]
      have ht : (trim (c :: cs)).isEmpty = false := by
        have hsp := not_isSpace_of_isDigit hc
        have hmem : c ∈ (c :: cs).reverse := by simp
        have hne : ((c :: cs).reverse.dropWhile isSpace) ≠ [] := by
          intro he
          have := all_of_dropWhile_eq_nil _ _ he c hmem
          rw [hsp] at this
          exact Bool.noConfusion this
        have htrim : trim (c :: cs) = ((c :: cs).reverse.dropWhile isSpace).reverse := by
          simp only [trim, List.dropWhile_cons, hsp]
          rfl
        rw [htrim]
        cases hr : ((c :: cs).reverse.dropWhile isSpace).reverse with
        | nil =>
          exfalso
          apply hne
          simpa using hr
        | cons y ys => rfl
      have hkw' : toUpperCase (c :: cs) ∉ keywords := by
        intro hm
        have : keywords.contains (toUpperCase (c :: cs)) = true := by simpa using hm
        rw [hkw] at this
        exact Bool.noConfusion this
      unfold classify
      simp [hkw', hq, h, ht]

/-! ## The highlighter -/

/-- C1. Round trip: for every string, the texts of the tokens returned by
`highlightSQL`, concatenated in order, are the string itself; this covers the
empty string and texts with an unterminated quote. -/
theorem highlightSQL_roundtrip (s : JSString) :
    renderedText (highlightSQL s) = s := by
  unfold highlightSQL
  split
  · rename_i h
    cases s with
    | nil => rfl
    | cons c cs => simp at h
  · rw [renderedText_renderFrom]
    unfold parts
    rw [splitLoop_flatten _ _ _ (Nat.lt_succ_self _)]
    simp

/-- C2. A token of `highlightSQL` is a Keyword exactly when its text, put in upper
case (the case-insensitive comparison of the source), is one of the reserved
words, and every other token is a StringLiteral, a NumericLiteral or Plain. On
`SELECT * FROM t WHERE x > 5` the words SELECT, FROM and WHERE are Keywords,
`5` is a NumericLiteral, and `t`, `x`, `*`, `>` and the white space are Plain. -/
theorem highlightSQL_keyword_iff :
    (∀ (s : JSString) (t : Token), t ∈ highlightSQL s →
      (t.kind = .Keyword ↔ toUpperCase t.text ∈ keywords) ∧
      (t.kind ≠ .Keyword →
        t.kind = .StringLiteral ∨ t.kind = .NumericLiteral ∨ t.kind = .Plain)) ∧
    (highlightSQL (js "SELECT * FROM t WHERE x > 5")).map (fun t => (t.text, t.kind)) =
      [(js "SELECT", .Keyword), (js " ", .Plain), (js "*", .Plain), (js " ", .Plain),
       (js "FROM", .Keyword), (js " ", .Plain), (js "t", .Plain), (js " ", .Plain),
       (js "WHERE", .Keyword), (js " ", .Plain), (js "x", .Plain), (js " ", .Plain),
       (js ">", .Plain), (js " ", .Plain), (js "", .Plain), (js "5", .NumericLiteral),
       (js "", .Plain)] := by
  refine ⟨?_, by decide⟩
  intro s t h
  obtain ⟨_, hk⟩ := mem_highlightSQL h
  rw [hk]
  refine ⟨classify_keyword_iff _, ?_⟩
  intro hne
  have hf := classify_ne_functionName t.text
  cases hc : classify t.text <;> simp_all

/-- The keyword test on the tokens of `select 1`, written in lower case. -/
theorem highlightSQL_keyword_iff_witness :
    (⟨0, .Keyword, js "select"⟩ : Token) ∈ highlightSQL (js "select 1") ∧
    toUpperCase (js "select") ∈ keywords ∧
    (⟨2, .Plain, js ""⟩ : Token) ∈ highlightSQL (js "select 1") ∧
    ¬ toUpperCase (js "") ∈ keywords :=
  ⟨by decide,
   (highlightSQL_keyword_iff.1 (js "select 1") ⟨0, .Keyword, js "select"⟩ (by decide)).1.mp rfl,
   by decide,
   fun hm => absurd
     ((highlightSQL_keyword_iff.1 (js "select 1") ⟨2, .Plain, js ""⟩ (by decide)).1.mpr hm)
     (by decide)⟩

/-- C3, as stated, fails: on the text `5.` the highlighter returns the token `5.`
classified NumericLiteral, and `5.` is not of the form `digits[.digits]` with at
least one digit after the dot. -/
theorem numericLiteral_trailing_dot :
    (⟨1, .NumericLiteral, js "5."⟩ : Token) ∈ highlightSQL (js "5.") ∧
    specNumeric (js "5.") = false := by decide

/-- C3, amended. A token of `highlightSQL` is a NumericLiteral exactly when its
text is one or more decimal digits, optionally followed by a dot and zero or more
decimal digits. -/
theorem highlightSQL_numeric_iff (s : JSString) (t : Token) (h : t ∈ highlightSQL s) :
    t.kind = .NumericLiteral ↔
      ∃ a b : JSString, t.text = a ++ b ∧ a ≠ [] ∧ (∀ c ∈ a, isDigit c = true) ∧
        (b = [] ∨ ∃ f : JSString, b = 46 :: f ∧ ∀ c ∈ f, isDigit c = true) := by
  obtain ⟨_, hk⟩ := mem_highlightSQL h
  rw [hk, classify_numeric_iff, isNumber_iff]

/-- The numeric test on the token `12.50` of `x = 12.50`. -/
theorem highlightSQL_numeric_iff_witness :
    (⟨5, .NumericLiteral, js "12.50"⟩ : Token) ∈ highlightSQL (js "x = 12.50") ∧
    ∃ a b : JSString, js "12.50" = a ++ b ∧ a ≠ [] ∧ (∀ c ∈ a, isDigit c = true) ∧
      (b = [] ∨ ∃ f : JSString, b = 46 :: f ∧ ∀ c ∈ f, isDigit c = true) :=
  ⟨by decide,
   (highlightSQL_numeric_iff (js "x = 12.50") ⟨5, .NumericLiteral, js "12.50"⟩
     (by decide)).mp rfl⟩

/-- C4, as stated, fails: on `WHERE name = 'O'Brien'` no token has the text
`Brien` and no token is the lone apostrophe; the text after `'O'` is not split. -/
theorem unterminated_quote_not_split :
    ((highlightSQL (js "WHERE name = 'O'Brien'")).map Token.text).contains (js "Brien") =
      false ∧
    ((highlightSQL (js "WHERE name = 'O'Brien'")).map Token.text).contains (js "'") =
      false ∧
    ((highlightSQL (js "WHERE name = 'O'Brien'")).map Token.text).getLast? =
      some (js "Brien'") := by decide

/-- C4, amended. On `WHERE name = 'O'Brien'` the highlighter yields the token `'O'`
classified StringLiteral, and the trailing text `Brien'` stays one Plain token:
the last apostrophe has no closing apostrophe, so nothing matches there. -/
theorem highlightSQL_unterminated_quote :
    (highlightSQL (js "WHERE name = 'O'Brien'")).map (fun t => (t.text, t.kind)) =
      [(js "WHERE", .Keyword), (js " ", .Plain), (js "name", .Plain), (js " ", .Plain),
       (js "=", .Plain), (js " ", .Plain), (js "", .Plain), (js "'O'", .StringLiteral),
       (js "Brien'", .Plain)] := by decide

/-- C5. No token of `highlightSQL` is ever classified FunctionName: every
function name is also a reserved word, and the Keyword test comes first. -/
theorem highlightSQL_no_functionName :
    (∀ (s : JSString) (t : Token), t ∈ highlightSQL s → t.kind ≠ .FunctionName) ∧
    (∀ w ∈ functionNames, w ∈ keywords) := by
  refine ⟨?_, functionNames_subset_keywords⟩
  intro s t h
  obtain ⟨_, hk⟩ := mem_highlightSQL h
  rw [hk]
  exact classify_ne_functionName _

/-- The function name of `count(x)` comes out as a Keyword. -/
theorem highlightSQL_no_functionName_witness :
    (⟨0, .Keyword, js "count"⟩ : Token) ∈ highlightSQL (js "count(x)") ∧
    (⟨0, .Keyword, js "count"⟩ : Token).kind ≠ .FunctionName ∧
    js "COUNT" ∈ keywords :=
  ⟨by decide,
   highlightSQL_no_functionName.1 (js "count(x)") ⟨0, .Keyword, js "count"⟩ (by decide),
   highlightSQL_no_functionName.2 (js "COUNT") (by decide)⟩

/-! ## The query lifecycle -/

/-- C6, as stated, fails: A is submitted, B is submitted from the history panel
while A is in flight, B settles with `SELECT b`, then A settles with `SELECT a`.
After B settled the result was B's; the final result is A's. -/
theorem stale_resolution_overwrites :
    (settledB { AppState.initial with history := [⟨1, js "old question", true, 3⟩] }
        (js "new question") (js "old question")
        (.fulfilled (.object ⟨true, none, some (js "SELECT b"), none⟩))).queryResult =
      some ⟨true, none, some (js "SELECT b"), none⟩ ∧
    (staleResolution { AppState.initial with history := [⟨1, js "old question", true, 3⟩] }
        (js "new question") (js "old question")
        (.fulfilled (.object ⟨true, none, some (js "SELECT a"), none⟩))
        (.fulfilled (.object ⟨true, none, some (js "SELECT b"), none⟩))).queryResult =
      some ⟨true, none, some (js "SELECT a"), none⟩ := by decide

/-- C6, amended. In the interleaving where A is submitted, B is submitted before A
settles and A settles after B, the resolution that arrives last writes over the
state B produced: `queryLoading` is false, `queryResult` is the data of A when A
succeeded and otherwise what B left, `queryError` is the message of A when A
failed and otherwise what B left. -/
theorem staleResolution_last_resolution_wins (st : AppState) (qA qB : JSString)
    (oA oB : Settled (Reply QueryData)) :
    (staleResolution st qA qB oA oB).queryLoading = false ∧
    (staleResolution st qA qB oA oB).queryResult = (resultOf oA <|> resultOf oB) ∧
    (staleResolution st qA qB oA oB).queryError = (errorOf oA <|> errorOf oB) := by
  rcases oA with ⟨_ | dA⟩ | _ <;> rcases oB with ⟨_ | dB⟩ | _ <;>
    simp only [staleResolution, handleQuery_resume, handleHistorySelect, handleQuery_begin,
      loadHistory_begin, resultOf, errorOf] <;>
    (try cases dA.success) <;> (try cases dB.success) <;> simp

theorem orElse_ne_nil (a : Option JSString) (b : JSString) (hb : b ≠ []) :
    orElse a b ≠ [] := by
  unfold orElse
  cases a with
  | none => exact hb
  | some m =>
    cases m with
    | nil => simpa using hb
    | cons c cs => simp

theorem generationFailedMessage_ne_nil : generationFailedMessage ≠ [] := by decide

theorem connectionErrorMessage_ne_nil : connectionErrorMessage ≠ [] := by decide

/-- C7, as stated, fails: when `fetch` rejects, `handleQuery` ends in its `catch`
branch and no history request has been sent. -/
theorem no_refresh_on_transport_failure :
    fetchHistoryCalls
      (handleQuery AppState.initial (js "top 5 customers") .networkError) = 0 := by decide

/-- C7, amended. A submission sends exactly one history request when the promise
of `submitQuery` is fulfilled with a body whose properties can be read, whether
its `success` is true or false; it sends none when the promise is rejected
(`fetch` fails, the status is not 2xx, the body does not parse) or the body is
`null`. Starting `handleQuery` sends none. -/
theorem handleQuery_history_refresh (st : AppState) (question : JSString) :
    fetchHistoryCalls (handleQuery_begin st question) = fetchHistoryCalls st ∧
    (∀ data : QueryData,
      fetchHistoryCalls (handleQuery_resume st (.fulfilled (.object data))) =
        fetchHistoryCalls st + 1 ∧
      fetchHistoryCalls (handleQuery st question (.response true (some (.object data)))) =
        fetchHistoryCalls st + 1) ∧
    fetchHistoryCalls (handleQuery_resume st .rejected) = fetchHistoryCalls st ∧
    fetchHistoryCalls (handleQuery_resume st (.fulfilled .null)) = fetchHistoryCalls st ∧
    fetchHistoryCalls (handleQuery st question .networkError) = fetchHistoryCalls st ∧
    (∀ body, fetchHistoryCalls (handleQuery st question (.response false body)) =
      fetchHistoryCalls st) ∧
    fetchHistoryCalls (handleQuery st question (.response true none)) = fetchHistoryCalls st := by
  refine ⟨?_, ?_, ?_, ?_, ?_, ?_, ?_⟩
  · simp [fetchHistoryCalls, handleQuery_begin]
  · intro data
    constructor
    · cases hs : data.success <;>
        simp [fetchHistoryCalls, handleQuery_resume, loadHistory_begin, hs]
    · cases hs : data.success <;>
        simp [fetchHistoryCalls, handleQuery, submitQuery, awaitJson, handleQuery_resume,
          handleQuery_begin, loadHistory_begin, hs]
  · simp [fetchHistoryCalls, handleQuery_resume]
  · simp [fetchHistoryCalls, handleQuery_resume]
  · simp [fetchHistoryCalls, handleQuery, submitQuery, awaitJson, handleQuery_resume,
      handleQuery_begin]
  · intro body
    simp [fetchHistoryCalls, handleQuery, submitQuery, awaitJson, handleQuery_resume,
      handleQuery_begin]
  · simp [fetchHistoryCalls, handleQuery, submitQuery, awaitJson, handleQuery_resume,
      handleQuery_begin]

/-- C8. When `submitQuery` is fulfilled with a body whose `success` is false,
`handleQuery` ends with `queryError` set to the message of the body when it has
one, and to `Failed to generate SQL` when the message is missing (or the empty
string, which is falsy); `queryResult` stays absent and `queryLoading` is
false. The error and the loading flag are set whatever happened while the
request was in flight. -/
theorem handleQuery_service_failure (st : AppState) (question : JSString)
    (data : QueryData) (hs : data.success = false) :
    (∀ m : JSString, data.error = some m → m ≠ [] →
      (handleQuery st question (.response true (some (.object data)))).queryError =
        some m) ∧
    (data.error = none ∨ data.error = some [] →
      (handleQuery st question (.response true (some (.object data)))).queryError =
        some (js "Failed to generate SQL")) ∧
    (handleQuery st question (.response true (some (.object data)))).queryResult = none ∧
    (handleQuery st question (.response true (some (.object data)))).queryLoading = false ∧
    (∀ inFlight : AppState,
      (handleQuery_resume inFlight (.fulfilled (.object data))).queryError =
        some (orElse data.error generationFailedMessage) ∧
      (handleQuery_resume inFlight (.fulfilled (.object data))).queryLoading = false) := by
  refine ⟨?_, ?_, ?_, ?_, ?_⟩
  · intro m hm hne
    cases m with
    | nil => exact absurd rfl hne
    | cons c cs =>
      simp [handleQuery, submitQuery, awaitJson, handleQuery_resume, handleQuery_begin,
        loadHistory_begin, hs, hm, orElse]
  · intro h
    rcases h with h | h <;>
      simp [handleQuery, submitQuery, awaitJson, handleQuery_resume, handleQuery_begin,
        loadHistory_begin, hs, h, orElse, generationFailedMessage]
  · simp [handleQuery, submitQuery, awaitJson, handleQuery_resume, handleQuery_begin,
      loadHistory_begin, hs]
  · simp [handleQuery, submitQuery, awaitJson, handleQuery_resume, handleQuery_begin,
      loadHistory_begin, hs]
  · intro inFlight
    simp [handleQuery_resume, loadHistory_begin, hs]

/-- The reply `{success: false, error: "ambiguous schema"}` of the specification. -/
theorem handleQuery_service_failure_witness :
    (handleQuery AppState.initial (js "top 5 customers")
        (.response true (some (.object ⟨false, some (js "ambiguous schema"), none, none⟩)))).queryError =
      some (js "ambiguous schema") ∧
    (handleQuery AppState.initial (js "top 5 customers")
        (.response true (some (.object ⟨false, some (js "ambiguous schema"), none, none⟩)))).queryResult =
      none :=
  ⟨(handleQuery_service_failure AppState.initial (js "top 5 customers")
      ⟨false, some (js "ambiguous schema"), none, none⟩ rfl).1 (js "ambiguous schema") rfl
      (by decide),
   (handleQuery_service_failure AppState.initial (js "top 5 customers")
      ⟨false, some (js "ambiguous schema"), none, none⟩ rfl).2.2.1⟩

/-- C9, as stated, fails twice. A reply `{success: true}` without `sql` is stored
in `queryResult` as it is, so a succeeded attempt carries no `sql`. And when a
failed attempt B is overtaken by the late success of A, `queryResult` and
`queryError` are both set. -/
theorem succeeded_without_sql :
    (handleQuery AppState.initial (js "top 5 customers")
        (.response true (some (.object ⟨true, none, none, none⟩)))).queryResult =
      some ⟨true, none, none, none⟩ ∧
    (⟨true, none, none, none⟩ : QueryData).sql = none ∧
    (staleResolution AppState.initial (js "a") (js "b")
        (.fulfilled (.object ⟨true, none, some (js "SELECT 1"), none⟩))
        (.fulfilled (.object ⟨false, some (js "ambiguous schema"), none, none⟩))).queryResult =
      some ⟨true, none, some (js "SELECT 1"), none⟩ ∧
    (staleResolution AppState.initial (js "a") (js "b")
        (.fulfilled (.object ⟨true, none, some (js "SELECT 1"), none⟩))
        (.fulfilled (.object ⟨false, some (js "ambiguous schema"), none, none⟩))).queryError =
      some (js "ambiguous schema") := by decide

/-- C9, amended. After a call of `handleQuery` that runs from start to end with no
other submission in between, exactly one of `queryResult` and `queryError` is set:
either `queryError` holds a non-empty message and `queryResult` is absent, or
`queryResult` holds the body `submitQuery` delivered, whose `success` is true, and
`queryError` is absent. In both cases `queryLoading` is false. -/
theorem handleQuery_attempt_invariant (st : AppState) (question : JSString)
    (net : FetchOutcome (Reply QueryData)) :
    ((handleQuery st question net).queryResult = none ∧
        ∃ m : JSString, (handleQuery st question net).queryError = some m ∧ m ≠ []) ∨
      ((handleQuery st question net).queryError = none ∧
        ∃ data : QueryData, (handleQuery st question net).queryResult = some data ∧
          data.success = true ∧ submitQuery net = .fulfilled (.object data)) := by
  have hg := generationFailedMessage_ne_nil
  have hc := connectionErrorMessage_ne_nil
  rcases net with _ | ⟨ok, body⟩
  · left
    exact ⟨rfl, _, rfl, hc⟩
  · cases ok with
    | false => left; exact ⟨rfl, _, rfl, hc⟩
    | true =>
      rcases body with _ | _ | data
      · left; exact ⟨rfl, _, rfl, hc⟩
      · left; exact ⟨rfl, _, rfl, hc⟩
      · cases hs : data.success with
        | false =>
          left
          refine ⟨?_, orElse data.error generationFailedMessage, ?_, orElse_ne_nil _ _ hg⟩
          · simp [handleQuery, submitQuery, awaitJson, handleQuery_resume, handleQuery_begin,
              loadHistory_begin, hs]
          · simp [handleQuery, submitQuery, awaitJson, handleQuery_resume, handleQuery_begin,
              loadHistory_begin, hs]
        | true =>
          right
          refine ⟨?_, data, ?_, hs, rfl⟩
          · simp [handleQuery, submitQuery, awaitJson, handleQuery_resume, handleQuery_begin,
              loadHistory_begin, hs]
          · simp [handleQuery, submitQuery, awaitJson, handleQuery_resume, handleQuery_begin,
              loadHistory_begin, hs]

/-- C10. While `queryLoading` is true, `handleSubmit` does not call `onSubmit`,
whatever the text: no request is sent and the state is unchanged. When
`queryLoading` is false it calls `onSubmit` exactly when the trimmed text is not
empty, and passes the trimmed text. -/
theorem handleSubmit_single_flight (question : JSString) :
    handleSubmit question true = none ∧
    handleSubmit question false =
      (if trim question = [] then none else some (trim question)) ∧
    (∀ st : AppState, st.queryLoading = true → submitForm st question = st) ∧
    (∀ st : AppState, st.queryLoading = false →
      submitForm st question =
        (if trim question = [] then st else handleQuery_begin st (trim question))) := by
  refine ⟨?_, ?_, ?_, ?_⟩
  · simp [handleSubmit]
  · cases h : trim question <;> simp [handleSubmit, h]
  · intro st hl
    simp [submitForm, handleSubmit, hl]
  · intro st hl
    cases h : trim question <;> simp [submitForm, handleSubmit, hl, h]

/-- A second submission while the first is in flight, and a first submission of
a text with blanks around it. -/
theorem handleSubmit_single_flight_witness :
    submitForm (handleQuery_begin AppState.initial (js "top 5")) (js "again") =
      handleQuery_begin AppState.initial (js "top 5") ∧
    submitForm AppState.initial (js "  top 5 ") =
      handleQuery_begin AppState.initial (js "top 5") ∧
    submitQueryCalls
      (submitForm (handleQuery_begin AppState.initial (js "top 5")) (js "again")) = 1 :=
  ⟨(handleSubmit_single_flight (js "again")).2.2.1
      (handleQuery_begin AppState.initial (js "top 5")) rfl,
   ((handleSubmit_single_flight (js "  top 5 ")).2.2.2 AppState.initial rfl).trans
      (by decide),
   by decide⟩

/-- C11. For every history list, `handleClearHistory` empties the list when the call
of `clearHistory` succeeds; when it fails (`fetch` rejects, the status is not 2xx,
the body does not parse) it leaves the list as it was and shows the error toast
`Failed to clear history`. In both cases `queryResult`, `queryError` and
`queryLoading` are unchanged. This holds on the state found when the promise
settles, and so for the whole call. -/
theorem handleClearHistory_spec (st : AppState) :
    ((handleClearHistory_resume st (.fulfilled ())).history = [] ∧
      (handleClearHistory st (.response true (some ()))).history = []) ∧
    ((handleClearHistory_resume st .rejected).history = st.history ∧
      (handleClearHistory_resume st .rejected).toast =
        some ⟨"Failed to clear history", "error"⟩ ∧
      ∀ net : FetchOutcome Unit, net ≠ .response true (some ()) →
        (handleClearHistory st net).history = st.history ∧
        (handleClearHistory st net).toast = some ⟨"Failed to clear history", "error"⟩) ∧
    (∀ net : FetchOutcome Unit,
      (handleClearHistory st net).queryResult = st.queryResult ∧
      (handleClearHistory st net).queryError = st.queryError ∧
      (handleClearHistory st net).queryLoading = st.queryLoading) ∧
    (∀ o : Settled Unit,
      (handleClearHistory_resume st o).queryResult = st.queryResult ∧
      (handleClearHistory_resume st o).queryError = st.queryError ∧
      (handleClearHistory_resume st o).queryLoading = st.queryLoading) := by
  refine ⟨⟨rfl, rfl⟩, ⟨rfl, rfl, ?_⟩, ?_, ?_⟩
  · intro net hnet
    rcases net with _ | ⟨ok, body⟩
    · exact ⟨rfl, rfl⟩
    · cases ok with
      | false => exact ⟨rfl, rfl⟩
      | true =>
        cases body with
        | none => exact ⟨rfl, rfl⟩
        | some u => exact absurd rfl hnet
  · intro net
    rcases net with _ | ⟨ok, body⟩
    · exact ⟨rfl, rfl, rfl⟩
    · cases ok with
      | false => exact ⟨rfl, rfl, rfl⟩
      | true =>
        cases body with
        | none => exact ⟨rfl, rfl, rfl⟩
        | some u => exact ⟨rfl, rfl, rfl⟩
  · intro o
    cases o with
    | fulfilled u => exact ⟨rfl, rfl, rfl⟩
    | rejected => exact ⟨rfl, rfl, rfl⟩

/-- A failed clear on a list of one entry, with a query result on display. -/
theorem handleClearHistory_spec_witness :
    (handleClearHistory
        { AppState.initial with
          history := [⟨1, js "top 5 customers", true, 5⟩],
          queryResult := some ⟨true, none, some (js "SELECT 1"), none⟩ }
        (.response false none)).history = [⟨1, js "top 5 customers", true, 5⟩] ∧
    toastMessage (handleClearHistory
        { AppState.initial with
          history := [⟨1, js "top 5 customers", true, 5⟩],
          queryResult := some ⟨true, none, some (js "SELECT 1"), none⟩ }
        (.response false none)) = some "Failed to clear history" :=
  ⟨((handleClearHistory_spec _).2.1.2.2 (.response false none) (by decide)).1,
   congrArg (Option.map Toast.message)
     ((handleClearHistory_spec _).2.1.2.2 (.response false none) (by decide)).2⟩

/-- The `try`, `catch` and `finally` reading of `handleQuery` leaves the state
computed by `handleQuery_resume`. -/
theorem handleQuery_settle_state (st : AppState) (o : Settled (Reply QueryData)) :
    (handleQuery_settle st o).1 = handleQuery_resume st o := by
  rcases o with ⟨_ | data⟩ | _ <;> rfl

/-- The promise of `submitQuery` is rejected exactly on a transport failure:
`fetch` rejects, the status is not 2xx, or the body does not parse. -/
theorem submitQuery_rejected_iff (net : FetchOutcome (Reply QueryData)) :
    submitQuery net = .rejected ↔
      net = .networkError ∨ (∃ body, net = .response false body) ∨
        net = .response true none := by
  rcases net with _ | ⟨ok, body⟩
  · simp [submitQuery, awaitJson]
  · cases ok <;> cases body <;> simp [submitQuery, awaitJson]

/-- C12. When `submitQuery` fails at the transport level (`fetch` rejects, the
status is not 2xx, or the body does not parse), `handleQuery` ends with
`queryError` set to `Connection error. Is the backend server running?`,
`queryResult` absent and `queryLoading` false, and the promise it returns is
fulfilled: the failure stays in the `catch` branch. The error and the loading
flag are set whatever happened while the request was in flight. -/
theorem handleQuery_transport_failure (st : AppState) (question : JSString)
    (net : FetchOutcome (Reply QueryData))
    (hnet : net = .networkError ∨ (∃ body, net = .response false body) ∨
      net = .response true none) :
    submitQuery net = .rejected ∧
    (handleQuery st question net).queryError =
      some (js "Connection error. Is the backend server running?") ∧
    (handleQuery st question net).queryResult = none ∧
    (handleQuery st question net).queryLoading = false ∧
    (handleQuery_settle (handleQuery_begin st question) (submitQuery net)).1 =
      handleQuery st question net ∧
    (handleQuery_settle (handleQuery_begin st question) (submitQuery net)).2 =
      .fulfilled () ∧
    (∀ inFlight : AppState,
      (handleQuery_resume inFlight (submitQuery net)).queryError =
        some connectionErrorMessage ∧
      (handleQuery_resume inFlight (submitQuery net)).queryLoading = false ∧
      (handleQuery_settle inFlight (submitQuery net)).2 = .fulfilled ()) := by
  have hr : submitQuery net = .rejected := (submitQuery_rejected_iff net).mpr hnet
  have hm : connectionErrorMessage =
      js "Connection error. Is the backend server running?" := rfl
  refine ⟨hr, ?_, ?_, ?_, ?_, ?_, ?_⟩
  · simp only [handleQuery, hr, handleQuery_resume, hm]
  · simp only [handleQuery, hr, handleQuery_resume, handleQuery_begin]
  · simp only [handleQuery, hr, handleQuery_resume]
  · exact handleQuery_settle_state _ _
  · rw [hr]; rfl
  · intro inFlight
    rw [hr]
    exact ⟨rfl, rfl, rfl⟩

/-- A reply with status 500 to the question `top 5 customers`. -/
theorem handleQuery_transport_failure_witness :
    (handleQuery AppState.initial (js "top 5 customers")
        (.response false none)).queryError =
      some (js "Connection error. Is the backend server running?") ∧
    (handleQuery AppState.initial (js "top 5 customers")
        (.response false none)).queryResult = none ∧
    (handleQuery AppState.initial (js "top 5 customers")
        (.response false none)).queryLoading = false :=
  ⟨(handleQuery_transport_failure AppState.initial (js "top 5 customers")
      (.response false none) (Or.inr (Or.inl ⟨none, rfl⟩))).2.1,
   (handleQuery_transport_failure AppState.initial (js "top 5 customers")
      (.response false none) (Or.inr (Or.inl ⟨none, rfl⟩))).2.2.1,
   (handleQuery_transport_failure AppState.initial (js "top 5 customers")
      (.response false none) (Or.inr (Or.inl ⟨none, rfl⟩))).2.2.2.1⟩

/-! ## Digits and parts -/

theorem isDigit_eq_false_of_isSpace {c : Nat} (h : isSpace c = true) : isDigit c = false := by
  cases hd : isDigit c with
  | false => rfl
  | true =>
    rw [not_isSpace_of_isDigit hd] at h
    exact Bool.noConfusion h

theorem dropWhile_head_unsat (p : Nat → Bool) (l : List Nat) :
    ∀ (q : Nat) (rest : List Nat), l.dropWhile p = q :: rest → p q = false := by
  induction l with
  | nil => intro q rest h; simp at h
  | cons x xs ih =>
    intro q rest h
    simp only [List.dropWhile_cons] at h
    split at h
    · exact ih q rest h
    · rename_i hx
      simp only [List.cons.injEq] at h
      rw [← h.1]
      simpa using hx

theorem hasDigit_eq_false_iff (s : JSString) :
    hasDigit s = false ↔ ∀ c ∈ s, isDigit c = false := by
  unfold hasDigit
  induction s with
  | nil => simp
  | cons x xs ih => simp [List.any_cons, ih]

theorem hasDigit_append (a b : JSString) :
    hasDigit (a ++ b) = (hasDigit a || hasDigit b) := by
  simp [hasDigit, List.any_append]

theorem matchSpaces_partOK {s m r : JSString} (h : matchSpaces s = some (m, r)) :
    partOK m := by
  cases s with
  | nil => simp [matchSpaces] at h
  | cons c cs =>
    simp only [matchSpaces] at h
    split at h
    · rename_i hc
      simp only [Option.some.injEq, Prod.mk.injEq] at h
      obtain ⟨rfl, _⟩ := h
      left
      rw [hasDigit_eq_false_iff]
      intro x hx
      rcases List.mem_cons.mp hx with rfl | hx
      · exact isDigit_eq_false_of_isSpace hc
      · exact isDigit_eq_false_of_isSpace (mem_takeWhile_sat _ _ x hx)
    · simp at h

theorem matchUnit_partOK {k : Nat} (hk : isDigit k = false) {s m r : JSString}
    (h : matchUnit k s = some (m, r)) : partOK m := by
  cases s with
  | nil => simp [matchUnit] at h
  | cons c cs =>
    simp only [matchUnit] at h
    split at h
    · rename_i hc
      simp only [Option.some.injEq, Prod.mk.injEq] at h
      obtain ⟨rfl, _⟩ := h
      left
      subst hc
      simp [hasDigit, hk]
    · simp at h

theorem matchQuoted_partOK {s m r : JSString} (h : matchQuoted s = some (m, r)) :
    partOK m := by
  cases s with
  | nil => simp [matchQuoted] at h
  | cons c cs =>
    simp only [matchQuoted] at h
    split at h
    · rename_i hc
      split at h
      · simp at h
      · rename_i q rest hd
        simp only [Option.some.injEq, Prod.mk.injEq] at h
        obtain ⟨rfl, _⟩ := h
        right; right
        have hq : notQuote q = false := dropWhile_head_unsat _ _ _ _ hd
        have hq39 : q = 39 := by simpa [notQuote] using hq
        subst hc hq39
        simp only [isQuoted, beq_self_eq_true, Bool.true_and]
        rw [dropWhile_append_of_all _ _ _ (mem_takeWhile_sat notQuote cs)]
        simp [List.dropWhile_cons, hq]
    · simp at h

theorem matchNumber_partOK {s m r : JSString} (h : matchNumber s = some (m, r)) :
    partOK m := by
  cases s with
  | nil => simp [matchNumber] at h
  | cons c cs =>
    simp only [matchNumber] at h
    split at h
    · rename_i hc
      right; left
      rw [isNumber_iff]
      have hall : ∀ x ∈ c :: cs.takeWhile isDigit, isDigit x = true := by
        intro x hx
        rcases List.mem_cons.mp hx with rfl | hx
        · exact hc
        · exact mem_takeWhile_sat _ _ x hx
      split at h
      · rename_i rest hd
        simp only [Option.some.injEq, Prod.mk.injEq] at h
        obtain ⟨rfl, _⟩ := h
        exact ⟨c :: cs.takeWhile isDigit, 46 :: rest.takeWhile isDigit, by simp, by simp,
          hall, Or.inr ⟨_, rfl, mem_takeWhile_sat _ _⟩⟩
      · simp only [Option.some.injEq, Prod.mk.injEq] at h
        obtain ⟨rfl, _⟩ := h
        exact ⟨c :: cs.takeWhile isDigit, [], by simp, by simp, hall, Or.inl rfl⟩
    · simp at h

/-- Every match of the split pattern is a harmless part. -/
theorem matchDelim_partOK {s m r : JSString} (h : matchDelim s = some (m, r)) :
    partOK m := by
  unfold matchDelim at h
  cases h1 : matchSpaces s with
  | some x => rw [h1] at h; exact matchSpaces_partOK (h1.trans (by simpa using h))
  | none =>
    cases h2 : matchUnit 44 s with
    | some x =>
      rw [h1, h2] at h
      exact matchUnit_partOK (by decide) (h2.trans (by simpa using h))
    | none =>
      cases h3 : matchUnit 40 s with
      | some x =>
        rw [h1, h2, h3] at h
        exact matchUnit_partOK (by decide) (h3.trans (by simpa using h))
      | none =>
        cases h4 : matchUnit 41 s with
        | some x =>
          rw [h1, h2, h3, h4] at h
          exact matchUnit_partOK (by decide) (h4.trans (by simpa using h))
        | none =>
          cases h5 : matchQuoted s with
          | some x =>
            rw [h1, h2, h3, h4, h5] at h
            exact matchQuoted_partOK (h5.trans (by simpa using h))
          | none =>
            rw [h1, h2, h3, h4, h5] at h
            exact matchNumber_partOK (by simpa using h)

/-- The pattern matches at every digit. -/
theorem matchDelim_none_not_digit {c : Nat} {cs : JSString}
    (h : matchDelim (c :: cs) = none) : isDigit c = false := by
  cases hd : isDigit c with
  | false => rfl
  | true =>
    exfalso
    have hn : (matchNumber (c :: cs)).isSome = true := by
      simp only [matchNumber, hd, if_true]
      split <;> rfl
    unfold matchDelim at h
    cases h1 : matchSpaces (c :: cs) <;> cases h2 : matchUnit 44 (c :: cs) <;>
      cases h3 : matchUnit 40 (c :: cs) <;> cases h4 : matchUnit 41 (c :: cs) <;>
      cases h5 : matchQuoted (c :: cs) <;> cases h6 : matchNumber (c :: cs) <;>
      simp_all

theorem splitLoop_partOK (fuel : Nat) :
    ∀ (cur rest : JSString), hasDigit cur = false →
      ∀ p ∈ splitLoop fuel cur rest, partOK p := by
  induction fuel with
  | zero =>
    intro cur rest _ p hp
    have h0 : splitLoop 0 cur rest = [] := rfl
    rw [h0] at hp
    simp at hp
  | succ n ih =>
    intro cur rest hcur p hp
    cases rest with
    | nil =>
      rw [splitLoop_nil] at hp
      simp only [List.mem_singleton] at hp
      subst hp
      exact Or.inl hcur
    | cons c cs =>
      rw [splitLoop_cons] at hp
      cases hm : matchDelim (c :: cs) with
      | none =>
        rw [hm] at hp
        have hc := matchDelim_none_not_digit hm
        refine ih (cur ++ [c]) cs ?_ p hp
        rw [hasDigit_append, hcur]
        simp [hasDigit, hc]
      | some x =>
        obtain ⟨m, r⟩ := x
        rw [hm] at hp
        simp only [List.mem_cons] at hp
        rcases hp with rfl | rfl | hp
        · exact Or.inl hcur
        · exact matchDelim_partOK hm
        · exact ih [] r rfl p hp

/-- A part that passes the string test is classified StringLiteral: it starts
with an apostrophe, so it is no reserved word. -/
theorem classify_of_isQuoted {part : JSString} (h : isQuoted part = true) :
    classify part = .StringLiteral := by
  cases part with
  | nil => simp [isQuoted] at h
  | cons c cs =>
    have hc : c = 39 := by
      simp only [isQuoted, Bool.and_eq_true, beq_iff_eq] at h
      exact h.1
    subst hc
    have hkw : toUpperCase (39 :: cs) ∉ keywords := by
      intro hm
      have hcap := keywords_startsWithCapital _ hm
      have hu : upperUnit 39 = [39] := by decide
      simp [toUpperCase, hu, startsWithCapital] at hcap
    unfold classify
    simp [hkw, h]

/-- C13. Every token of `highlightSQL` whose text holds a decimal digit is classified
NumericLiteral or StringLiteral: the split pattern matches at every digit, so no
digit stays in a word. Hence `col1` gives Plain `col` then NumericLiteral `1`, and
`order1` gives Keyword `order` then NumericLiteral `1` (each followed by the empty
last part of the split). -/
theorem highlightSQL_digit_tokens :
    (∀ (s : JSString) (t : Token), t ∈ highlightSQL s → hasDigit t.text = true →
      t.kind = .NumericLiteral ∨ t.kind = .StringLiteral) ∧
    (highlightSQL (js "col1")).map (fun t => (t.text, t.kind)) =
      [(js "col", .Plain), (js "1", .NumericLiteral), (js "", .Plain)] ∧
    (highlightSQL (js "order1")).map (fun t => (t.text, t.kind)) =
      [(js "order", .Keyword), (js "1", .NumericLiteral), (js "", .Plain)] := by
  refine ⟨?_, by decide, by decide⟩
  intro s t h hd
  obtain ⟨hmem, hk⟩ := mem_highlightSQL h
  have hok : partOK t.text := splitLoop_partOK _ [] s rfl t.text hmem
  rw [hk]
  rcases hok with h0 | hn | hq
  · rw [hd] at h0
    exact Bool.noConfusion h0
  · exact Or.inl ((classify_numeric_iff _).mpr hn)
  · exact Or.inr (classify_of_isQuoted hq)

/-- The digit tokens of `a1 = 'b2'`: a number and a quoted string. -/
theorem highlightSQL_digit_tokens_witness :
    (⟨1, .NumericLiteral, js "1"⟩ : Token) ∈ highlightSQL (js "a1 = 'b2'") ∧
    (⟨7, .StringLiteral, js "'b2'"⟩ : Token) ∈ highlightSQL (js "a1 = 'b2'") ∧
    ((⟨7, .StringLiteral, js "'b2'"⟩ : Token).kind = .NumericLiteral ∨
      (⟨7, .StringLiteral, js "'b2'"⟩ : Token).kind = .StringLiteral) :=
  ⟨by decide, by decide,
   highlightSQL_digit_tokens.1 (js "a1 = 'b2'") ⟨7, .StringLiteral, js "'b2'"⟩
     (by decide) (by decide)⟩

end SqlQuerying
